import Mathlib

/-!
Verification of the hole-closing core of `smorgasbord` —
`src/ops/close_through_holes.py` (class `CloseSolidHoles`).

The embedding follows the Python source line by line:

* `concave` — the concavity predicate `n.dot(centrs[i2] - c) > 1e-5`
  (line 95), over exact rationals.
* `pushNeighbors` — the inner `for l in f.loops` loop (lines 89-97) which
  pushes unvisited concave radial neighbors onto the stack.
* `floodLoop` — the `while stack` loop (lines 83-97); the Python stack is a
  list with its top at the end, modelled here as a list with its top at the
  head (append/pop at the end corresponds to cons/head).
* `outerLoop` — the `for i, new in enumerate(flags)` loop (lines 73-100),
  including the `len(findcs) > 1` filter.
* `findConcavePatches` — `_find_concave_patches` for one mesh (segmentation
  part, lines 50-100); `flags` starts as the per-face selection state
  (`get_scalars(polys)`, line 64).
* `faceVote`, `bincountArgmax`, `patchDirec` — the dominant-direction
  computation `dirs = np.argmax(np.abs(normals[findcs]), axis=1)` and
  `direc = dirs[np.bincount(dirs).argmax()]` (lines 118-120).  `np.argmax`
  returns the first index attaining the maximum; `patchDirec` is `none`
  exactly when the numpy indexing `dirs[...]` would raise an `IndexError`.
* `summarize` — the second loop of `_find_concave_patches` (lines 108-123)
  producing `(vindcs, centr, bounds[direc])`.
* `inLimits`, `closedPatches`, `runMesh`, `executeAll` — `execute`
  (lines 126-143): the strict filter `mind < diam < maxd` and the per-mesh
  mutation loop.  The bmesh surgery (`pointmerge` + `dissolve_verts`) is an
  external call that may raise, modelled as a fallible oracle
  `PatchSummary → Except String Unit`; a raised exception propagates out of
  `execute`, so `executeAll` stops at the first error and returns the list
  of meshes that were fully processed.
* `setLimits`, `applyUpdates` — the property setter `_set_limits`
  (lines 24-26): `CloseSolidHoles._limits = (min(value), value[1])`,
  starting from the class default `_limits = (0, 1)` (line 29).
-/

/-- A 3-vector of exact rationals (idealizing the float vectors of the
source). -/
structure Vec3 where
  x : ℚ
  y : ℚ
  z : ℚ
deriving DecidableEq

/-- Componentwise addition (used for summing centroids). -/
def vadd (a b : Vec3) : Vec3 := ⟨a.x + b.x, a.y + b.y, a.z + b.z⟩

/-- Componentwise subtraction (`centrs[i2] - c`). -/
def vsub (a b : Vec3) : Vec3 := ⟨a.x - b.x, a.y - b.y, a.z - b.z⟩

/-- Componentwise minimum (per-axis lower bound of a point set). -/
def vmin (a b : Vec3) : Vec3 := ⟨min a.x b.x, min a.y b.y, min a.z b.z⟩

/-- Componentwise maximum (per-axis upper bound of a point set). -/
def vmax (a b : Vec3) : Vec3 := ⟨max a.x b.x, max a.y b.y, max a.z b.z⟩

/-- Scalar multiple (used for the arithmetic mean). -/
def vscale (q : ℚ) (a : Vec3) : Vec3 := ⟨q * a.x, q * a.y, q * a.z⟩

/-- Dot product `n.dot(v)`. -/
def dot (a b : Vec3) : ℚ := a.x * b.x + a.y * b.y + a.z * b.z

/-- Component of a vector along coordinate axis `i` (`bounds[direc]`,
line 123; the source only ever indexes with `i ∈ {0, 1, 2}`). -/
def axisGet (v : Vec3) (i : Nat) : ℚ :=
  if i = 0 then v.x else if i = 1 then v.y else v.z

/-- The tolerance `1e-5` of line 95. -/
def eps : ℚ := 1 / 100000

/-- The concavity predicate of line 95: `n.dot(centrs[i2] - c) > 1e-5`,
where `n` is the current face's normal, `p` its centroid and `c2` the
neighbor's centroid. -/
def concave (n p c2 : Vec3) : Bool := decide (dot n (vsub c2 p) > eps)

/-- Lines 89-97: for each loop of face `f`, take the radial neighbor `i2`;
if it is still eligible (`flags[i2]`) and the concavity predicate holds,
clear its flag and push it.  `flags` is indexed with default `false`
(out-of-range indices are never eligible); the Python stack grows at its
end, modelled here by consing onto the head. -/
def pushNeighbors (nrm cen : Nat → Vec3) (f : Nat) :
    List Nat → List Bool → List Nat → List Bool × List Nat
  | [], flags, stack => (flags, stack)
  | i2 :: nbrs, flags, stack =>
      if flags.getD i2 false && concave (nrm f) (cen f) (cen i2) then
        pushNeighbors nrm cen f nbrs (flags.set i2 false) (i2 :: stack)
      else
        pushNeighbors nrm cen f nbrs flags stack

/-- Lines 83-97: the `while stack` loop.  Pop a face `f`, append its index
to `findcs` (`acc`), and push its eligible concave radial neighbors.
Terminates because each iteration removes one stack entry and every push
clears one `true` flag, so `flags.count true + stack.length` strictly
decreases. -/
def floodLoop (adjF : Nat → List Nat) (nrm cen : Nat → Vec3)
    (stack : List Nat) (flags : List Bool) (acc : List Nat) :
    List Nat × List Bool :=
  match stack with
  | [] => (acc, flags)
  | f :: rest =>
      floodLoop adjF nrm cen
        (pushNeighbors nrm cen f (adjF f) flags rest).2
        (pushNeighbors nrm cen f (adjF f) flags rest).1
        (acc ++ [f])
  termination_by flags.count true + stack.length
  decreasing_by
    have hset : ∀ (l : List Bool) (j : Nat), l.getD j false = true →
        (l.set j false).count true + 1 = l.count true := by
      intro l
      induction l with
      | nil => intro j h; simp [List.getD] at h
      | cons b t ih =>
          intro j h
          cases j with
          | zero =>
              rw [List.getD_cons_zero] at h
              subst h
              rw [List.set_cons_zero]
              simp [List.count_cons]
          | succ j =>
              rw [List.getD_cons_succ] at h
              rw [List.set_cons_succ, List.count_cons, List.count_cons]
              have := ih j h
              omega
    have hpn : ∀ (g : Nat) (nbrs : List Nat) (fl : List Bool) (st : List Nat),
        (pushNeighbors nrm cen g nbrs fl st).1.count true +
          (pushNeighbors nrm cen g nbrs fl st).2.length =
        fl.count true + st.length := by
      intro g nbrs
      induction nbrs with
      | nil => intro fl st; rfl
      | cons i2 t ih =>
          intro fl st
          simp only [pushNeighbors]
          split
          · rename_i hb
            have h1 : fl.getD i2 false = true := by
              revert hb
              cases fl.getD i2 false <;> simp
            have h3 := ih (fl.set i2 false) (i2 :: st)
            have h4 := hset fl i2 h1
            simp only [List.length_cons] at h3 ⊢
            omega
          · exact ih fl st
    have := hpn f (adjF f) flags rest
    simp only [List.length_cons]
    omega

/-- Lines 73-100: the outer `for i, new in enumerate(flags)` loop.  A face
`i` still flagged eligible seeds a flood fill (its flag cleared first,
line 77); the resulting `findcs` is recorded as a patch only when it has
more than one face (lines 99-100).  `enumerate` reads the (mutated) flag
array lazily, so the recursive call continues with the flags returned by
the flood fill. -/
def outerLoop (adjF : Nat → List Nat) (nrm cen : Nat → Vec3) :
    List Nat → List Bool → List (List Nat)
  | [], _ => []
  | i :: rest, flags =>
      if flags.getD i false then
        let r := floodLoop adjF nrm cen [i] (flags.set i false) []
        if 1 < r.1.length then
          r.1 :: outerLoop adjF nrm cen rest r.2
        else
          outerLoop adjF nrm cen rest r.2
      else
        outerLoop adjF nrm cen rest flags

/-- The adjacency view of one mesh in edit mode (§4.1 of the design):
per-face normal and centroid snapshots (`get_vecs(polys, ...)`), per-face
vertex lists (`polys[fidx].vertices`), per-face radial-neighbor lists in
loop order (`l.link_loop_radial_next.face.index`), and the per-face
selection state (`get_scalars(polys)`). -/
structure Mesh where
  numFaces : Nat
  normal : Nat → Vec3
  centroid : Nat → Vec3
  faceVerts : Nat → List Nat
  adj : Nat → List Nat
  selected : Nat → Bool

/-- Line 64: the initial flag array — one boolean per face, `true` exactly
for selected faces. -/
def initFlags (m : Mesh) : List Bool := (List.range m.numFaces).map m.selected

/-- Lines 50-100 for one mesh: the list of face-index patches found by the
segmentation pass. -/
def findConcavePatches (m : Mesh) : List (List Nat) :=
  outerLoop m.adj m.normal m.centroid (List.range m.numFaces) (initFlags m)

/-- Line 118 for one face: `np.argmax(np.abs(normal))` — the first
coordinate axis of greatest absolute magnitude in the normal (0 = x,
1 = y, 2 = z). -/
def faceVote (n : Vec3) : Nat :=
  if |n.x| ≥ |n.y| ∧ |n.x| ≥ |n.z| then 0
  else if |n.y| ≥ |n.z| then 1
  else 2

/-- Line 120, inner part: `np.bincount(dirs).argmax()` for a list of
values in `{0, 1, 2}` — the value with the greatest count, ties broken
toward the lowest value (numpy argmax returns the first maximum). -/
def bincountArgmax (dirs : List Nat) : Nat :=
  if dirs.count 0 ≥ dirs.count 1 ∧ dirs.count 0 ≥ dirs.count 2 then 0
  else if dirs.count 1 ≥ dirs.count 2 then 1
  else 2

/-- Line 118: the per-face axis votes `dirs` of the faces of one patch. -/
def patchDirs (nrm : Nat → Vec3) (findcs : List Nat) : List Nat :=
  findcs.map (fun i => faceVote (nrm i))

/-- Line 120 as written in the source:
`direc = dirs[np.bincount(dirs).argmax()]` — the element of `dirs` at
position `bincount(dirs).argmax()`.  `none` models the `IndexError` numpy
raises when that position is not a valid index into `dirs`. -/
def patchDirec (nrm : Nat → Vec3) (findcs : List Nat) : Option Nat :=
  (patchDirs nrm findcs)[bincountArgmax (patchDirs nrm findcs)]?

/-- Modelled from the spec: the helper `get_bounds_and_center` is imported
from `smorgasbord/common/io.py`, which is not among the sources here.  Per
§4.3 of the spec it returns, for a point set, the per-axis span
(max − min) and the arithmetic mean of the points. -/
def get_bounds_and_center (pts : List Vec3) : Vec3 × Vec3 :=
  match pts with
  | [] => (⟨0, 0, 0⟩, ⟨0, 0, 0⟩)
  | p :: rest =>
      (vsub (rest.foldl vmax p) (rest.foldl vmin p),
       vscale (1 / ((p :: rest).length : ℚ))
         ((p :: rest).foldl vadd ⟨0, 0, 0⟩))

/-- One entry of `patches2` (line 123): the deduplicated vertex indices of
the patch, the centroid every patch vertex is merged to, and the diameter
`bounds[direc]`. -/
structure PatchSummary where
  vindcs : List Nat
  centr : Vec3
  diam : ℚ
deriving DecidableEq

/-- Lines 108-123 for one patch: collect the member faces' vertex indices,
deduplicate (`list(set(vindcs))`), compute the dominant direction of
line 120 (`none` = `IndexError`), and build the summary from
`get_bounds_and_center` of the member-face centroids. -/
def summarize (m : Mesh) (findcs : List Nat) : Option PatchSummary :=
  match patchDirec m.normal findcs with
  | none => none
  | some direc =>
      let bc := get_bounds_and_center (findcs.map m.centroid)
      some ⟨((findcs.map m.faceVerts).flatten).dedup, bc.2, axisGet bc.1 direc⟩

/-- Line 133: the strict diameter filter `mind < diam < maxd`. -/
def inLimits (lim : ℚ × ℚ) (d : ℚ) : Bool :=
  decide (lim.1 < d) && decide (d < lim.2)

/-- The patches of one mesh that `execute` merges and dissolves: exactly
those whose diameter passes the strict filter of line 133. -/
def closedPatches (lim : ℚ × ℚ) (ps : List PatchSummary) : List PatchSummary :=
  ps.filter (fun p => inLimits lim p.diam)

/-- Sequencing of the per-patch surgery calls: apply `surgery` to every
patch in order, propagating the first raised error. -/
def surgerySeq (surgery : PatchSummary → Except String Unit) :
    List PatchSummary → Except String Unit
  | [] => .ok ()
  | p :: rest =>
      match surgery p with
      | .error e => .error e
      | .ok _ => surgerySeq surgery rest

/-- Lines 131-140: the per-mesh loop of `execute`.  Patches outside the
strict limits are skipped (`continue`); for the others the bmesh surgery
(`pointmerge` + `dissolve_verts`, an external call that may raise) runs,
and a raised exception propagates immediately. -/
def runMesh (surgery : PatchSummary → Except String Unit) (lim : ℚ × ℚ) :
    List PatchSummary → Except String Unit
  | [] => .ok ()
  | p :: rest =>
      if inLimits lim p.diam then
        match surgery p with
        | .error e => .error e
        | .ok _ => runMesh surgery lim rest
      else
        runMesh surgery lim rest

/-- Lines 126-143: the batch loop `for mesh, patches in self._meshes` of
`execute`.  There is no exception handling in the source, so an error
raised while mutating one mesh unwinds out of `execute`: the result is the
list of mesh identifiers that were fully processed (in order), together
with the first error, if any.  A mesh counts as processed only when its
whole patch list ran without error (through `bm.update_edit_mesh`). -/
def executeAll (surgery : Nat → PatchSummary → Except String Unit)
    (lim : ℚ × ℚ) : List (Nat × List PatchSummary) → List Nat × Option String
  | [] => ([], none)
  | (k, ps) :: rest =>
      match runMesh (surgery k) lim ps with
      | .error e => ([], some e)
      | .ok _ =>
          let r := executeAll surgery lim rest
          (k :: r.1, r.2)

/-- Lines 24-26: the property setter `_set_limits`.
`CloseSolidHoles._limits = (min(value), value[1])` — the stored minimum is
the smaller of the two incoming components, the stored maximum is the
incoming maximum unchanged.  The setter does not read the previously
stored pair. -/
def setLimits (value : ℚ × ℚ) : ℚ × ℚ := (min value.1 value.2, value.2)

/-- Line 29: the initial stored pair `_limits = (0, 1)`. -/
def limits0 : ℚ × ℚ := (0, 1)

/-- A sequence of writes through the `limits` property setter, starting
from a stored pair `init`. -/
def applyUpdates (init : ℚ × ℚ) (updates : List (ℚ × ℚ)) : ℚ × ℚ :=
  updates.foldl (fun _ v => setLimits v) init

/-- A concrete 3-face mesh: a chain `0 — 1 — 2`, all faces selected.
Face 0 looks along +y with centroid at the origin, face 1 along +x with
centroid `(0,1,0)`, face 2 along +y with centroid `(1,1,0)`; each step of
the chain satisfies the concavity predicate, so segmentation yields the
single patch `[0, 1, 2]`. -/
def M1 : Mesh where
  numFaces := 3
  normal := fun i =>
    if i = 0 then ⟨0, 1, 0⟩ else if i = 1 then ⟨1, 0, 0⟩ else ⟨0, 1, 0⟩
  centroid := fun i =>
    if i = 0 then ⟨0, 0, 0⟩ else if i = 1 then ⟨0, 1, 0⟩ else ⟨1, 1, 0⟩
  faceVerts := fun i => [3 * i, 3 * i + 1, 3 * i + 2]
  adj := fun i => if i = 0 then [1] else if i = 1 then [0, 2] else [1]
  selected := fun _ => true

/-- `M1` with different per-face vertex lists but identical face count,
selection, normals, centroids and adjacency — detection observes none of
the changed data. -/
def M9 : Mesh := { M1 with faceVerts := fun _ => [0] }

/-- A patch summary with diameter `1/2`, used to exercise `executeAll`. -/
def P4 : PatchSummary := ⟨[0], ⟨0, 0, 0⟩, 1 / 2⟩

/-- A surgery oracle that fails on mesh 0 (a malformed merge target) and
succeeds on every other mesh. -/
def surgery4 : Nat → PatchSummary → Except String Unit :=
  fun k _ => if k = 0 then .error "malformed merge target" else .ok ()

/-! ### Invariants of the flood fill -/

/-- Clearing one flag: reading any index of `l.set j false` gives `false`
at `j` and the old value elsewhere (out-of-range reads default to
`false`). -/
theorem getD_set_false (l : List Bool) (j i : Nat) :
    (l.set j false).getD i false = if i = j then false else l.getD i false := by
  induction l generalizing i j with
  | nil => simp [List.getD]
  | cons b t ih =>
      cases j with
      | zero =>
          cases i with
          | zero => rw [List.set_cons_zero, List.getD_cons_zero, if_pos rfl]
          | succ i =>
              rw [List.set_cons_zero, List.getD_cons_succ,
                if_neg (by omega), List.getD_cons_succ]
      | succ j =>
          cases i with
          | zero =>
              rw [List.set_cons_succ, List.getD_cons_zero,
                if_neg (by omega), List.getD_cons_zero]
          | succ i =>
              rw [List.set_cons_succ, List.getD_cons_succ, ih,
                List.getD_cons_succ]
              by_cases h : i = j
              · rw [if_pos h, if_pos (by omega)]
              · rw [if_neg h, if_neg (by omega)]

/-- Characterization of one neighbor scan (lines 89-97): a face index ends
up on the stack exactly when it was already there, or it is a listed
radial neighbor that was still eligible on entry and satisfies the
concavity predicate. -/
theorem pushNeighbors_mem (nrm cen : Nat → Vec3) (g : Nat) :
    ∀ (nbrs : List Nat) (fl : List Bool) (st : List Nat) (i2 : Nat),
      i2 ∈ (pushNeighbors nrm cen g nbrs fl st).2 ↔
        i2 ∈ st ∨ (i2 ∈ nbrs ∧ fl.getD i2 false = true ∧
          concave (nrm g) (cen g) (cen i2) = true) := by
  intro nbrs
  induction nbrs with
  | nil => intro fl st i2; simp [pushNeighbors]
  | cons j t ih =>
      intro fl st i2
      simp only [pushNeighbors]
      split
      · rename_i hb
        have hb1 : fl.getD j false = true := by
          revert hb; cases fl.getD j false <;> simp
        have hb2 : concave (nrm g) (cen g) (cen j) = true := by
          revert hb; cases concave (nrm g) (cen g) (cen j) <;> simp
        rw [ih]
        by_cases hij : i2 = j
        · subst hij
          constructor
          · intro _
            exact Or.inr ⟨List.mem_cons_self _ _, hb1, hb2⟩
          · intro _
            exact Or.inl (List.mem_cons_self _ _)
        · simp only [List.mem_cons, getD_set_false, if_neg hij]
          tauto
      · rename_i hb
        rw [ih]
        by_cases hij : i2 = j
        · subst hij
          have hnot : ¬(fl.getD i2 false = true ∧
              concave (nrm g) (cen g) (cen i2) = true) := by
            intro h
            exact hb (by rw [h.1, h.2]; rfl)
          simp only [List.mem_cons]
          tauto
        · simp only [List.mem_cons]
          tauto

/-- The neighbor scan only clears flags, never sets them. -/
theorem pushNeighbors_flags_mono (nrm cen : Nat → Vec3) (g : Nat) :
    ∀ (nbrs : List Nat) (fl : List Bool) (st : List Nat) (i : Nat),
      (pushNeighbors nrm cen g nbrs fl st).1.getD i false = true →
      fl.getD i false = true := by
  intro nbrs
  induction nbrs with
  | nil => intro fl st i h; exact h
  | cons j t ih =>
      intro fl st i h
      simp only [pushNeighbors] at h
      split at h
      · have h2 := ih _ _ i h
        rw [getD_set_false] at h2
        by_cases hij : i = j
        · rw [if_pos hij] at h2; exact absurd h2 (by simp)
        · rwa [if_neg hij] at h2
      · exact ih _ _ i h

/-- If the stack holds pairwise distinct indices whose flags are already
cleared, this is still true after the neighbor scan: every pushed index
has its flag cleared in the very same step, so nothing is pushed twice. -/
theorem pushNeighbors_nodup_false (nrm cen : Nat → Vec3) (g : Nat) :
    ∀ (nbrs : List Nat) (fl : List Bool) (st : List Nat),
      st.Nodup → (∀ i ∈ st, fl.getD i false = false) →
      (pushNeighbors nrm cen g nbrs fl st).2.Nodup ∧
        ∀ i ∈ (pushNeighbors nrm cen g nbrs fl st).2,
          (pushNeighbors nrm cen g nbrs fl st).1.getD i false = false := by
  intro nbrs
  induction nbrs with
  | nil => intro fl st h1 h2; exact ⟨h1, h2⟩
  | cons j t ih =>
      intro fl st h1 h2
      simp only [pushNeighbors]
      split
      · rename_i hb
        have hb1 : fl.getD j false = true := by
          revert hb; cases fl.getD j false <;> simp
        apply ih
        · refine List.nodup_cons.mpr ⟨fun hj => ?_, h1⟩
          rw [h2 j hj] at hb1
          exact absurd hb1 (by simp)
        · intro i hi
          rw [getD_set_false]
          rcases List.mem_cons.mp hi with rfl | hi
          · simp
          · by_cases hij : i = j
            · simp [hij]
            · rw [if_neg hij]; exact h2 i hi
      · exact ih fl st h1 h2

/-- Invariant of the `while stack` loop: starting from a duplicate-free
stack and accumulator whose members' flags are already cleared and which
share no member, the loop returns a duplicate-free `findcs`; every
returned face was in the accumulator, on the stack, or had its flag set on
entry; flags are only ever cleared; and every returned face has its flag
cleared in the returned flag array. -/
theorem floodLoop_spec (adjF : Nat → List Nat) (nrm cen : Nat → Vec3)
    (stack : List Nat) (flags : List Bool) (acc : List Nat) :
    stack.Nodup → acc.Nodup →
    (∀ i ∈ stack, flags.getD i false = false) →
    (∀ i ∈ acc, flags.getD i false = false) →
    (∀ i ∈ stack, i ∉ acc) →
    (floodLoop adjF nrm cen stack flags acc).1.Nodup ∧
      (∀ i ∈ (floodLoop adjF nrm cen stack flags acc).1,
        i ∈ acc ∨ i ∈ stack ∨ flags.getD i false = true) ∧
      (∀ i, (floodLoop adjF nrm cen stack flags acc).2.getD i false = true →
        flags.getD i false = true) ∧
      (∀ i ∈ (floodLoop adjF nrm cen stack flags acc).1,
        (floodLoop adjF nrm cen stack flags acc).2.getD i false = false) := by
  induction stack, flags, acc using floodLoop.induct adjF nrm cen with
  | case1 flags acc =>
      intro _ hacc _ haccf _
      simp only [floodLoop]
      exact ⟨hacc, fun i hi => Or.inl hi, fun i h => h, haccf⟩
  | case2 flags acc f rest ih =>
      intro hnodup haccnd hstackf haccf hdisj
      have hfr : f ∉ rest := (List.nodup_cons.mp hnodup).1
      have hrest : rest.Nodup := (List.nodup_cons.mp hnodup).2
      have hffl : flags.getD f false = false :=
        hstackf f (List.mem_cons_self f rest)
      have hrestf : ∀ i ∈ rest, flags.getD i false = false :=
        fun i hi => hstackf i (List.mem_cons_of_mem f hi)
      have hpn := pushNeighbors_nodup_false nrm cen f (adjF f) flags rest
        hrest hrestf
      have hkeep : ∀ i, flags.getD i false = false →
          (pushNeighbors nrm cen f (adjF f) flags rest).1.getD i false =
            false := by
        intro i hfl
        cases hcase : (pushNeighbors nrm cen f (adjF f) flags rest).1.getD i
            false with
        | false => rfl
        | true =>
            have := pushNeighbors_flags_mono nrm cen f (adjF f) flags rest i
              hcase
            rw [hfl] at this
            exact absurd this (by simp)
      have h2 : (acc ++ [f]).Nodup := by
        refine List.Nodup.append haccnd (List.nodup_singleton f) ?_
        intro a ha hb
        rw [List.mem_singleton] at hb
        subst hb
        exact hdisj a (List.mem_cons_self a rest) ha
      have h4 : ∀ i ∈ acc ++ [f],
          (pushNeighbors nrm cen f (adjF f) flags rest).1.getD i false =
            false := by
        intro i hi
        rcases List.mem_append.mp hi with hi | hi
        · exact hkeep i (haccf i hi)
        · rw [List.mem_singleton] at hi
          subst hi
          exact hkeep i hffl
      have h5 : ∀ i ∈ (pushNeighbors nrm cen f (adjF f) flags rest).2,
          i ∉ acc ++ [f] := by
        intro i hi hmem2
        rcases (pushNeighbors_mem nrm cen f (adjF f) flags rest i).mp hi with
          hrest2 | hnew
        · rcases List.mem_append.mp hmem2 with hacc2 | hf
          · exact hdisj i (List.mem_cons_of_mem f hrest2) hacc2
          · rw [List.mem_singleton] at hf
            subst hf
            exact hfr hrest2
        · obtain ⟨_, hfl, _⟩ := hnew
          rcases List.mem_append.mp hmem2 with hacc2 | hf
          · rw [haccf i hacc2] at hfl
            exact absurd hfl (by simp)
          · rw [List.mem_singleton] at hf
            subst hf
            rw [hffl] at hfl
            exact absurd hfl (by simp)
      obtain ⟨ih1, ih2, ih3, ih4⟩ := ih hpn.1 h2 hpn.2 h4 h5
      simp only [floodLoop]
      refine ⟨ih1, ?_, ?_, ih4⟩
      · intro i hi
        rcases ih2 i hi with h | h | h
        · rcases List.mem_append.mp h with h | h
          · exact Or.inl h
          · rw [List.mem_singleton] at h
            subst h
            exact Or.inr (Or.inl (List.mem_cons_self _ _))
        · rcases (pushNeighbors_mem nrm cen f (adjF f) flags rest i).mp h with
            h | hnew
          · exact Or.inr (Or.inl (List.mem_cons_of_mem f h))
          · exact Or.inr (Or.inr hnew.2.1)
        · exact Or.inr
            (Or.inr (pushNeighbors_flags_mono nrm cen f (adjF f) flags rest
              i h))
      · intro i h
        exact pushNeighbors_flags_mono nrm cen f (adjF f) flags rest i
          (ih3 i h)

/-- Invariant of the outer segmentation loop: the recorded patches are
pairwise disjoint and duplicate-free (their concatenation has no
duplicates), every recorded patch has more than one face, and every face
of a recorded patch was still eligible when the loop started. -/
theorem outerLoop_spec (adjF : Nat → List Nat) (nrm cen : Nat → Vec3) :
    ∀ (idcs : List Nat) (flags : List Bool),
      (outerLoop adjF nrm cen idcs flags).flatten.Nodup ∧
      ∀ p ∈ outerLoop adjF nrm cen idcs flags,
        1 < p.length ∧ ∀ i ∈ p, flags.getD i false = true := by
  intro idcs
  induction idcs with
  | nil => intro flags; simp [outerLoop]
  | cons i rest ih =>
      intro flags
      simp only [outerLoop]
      split
      · rename_i hflag
        have hfl := floodLoop_spec adjF nrm cen [i] (flags.set i false) []
          (List.nodup_singleton i) List.nodup_nil
          (by
            intro j hj
            rw [List.mem_singleton] at hj
            subst hj
            rw [getD_set_false, if_pos rfl])
          (by intro j hj; simp at hj)
          (by intro j hj hj2; simp at hj2)
        obtain ⟨hnd, hprov, hmono, hfinal⟩ := hfl
        have hmem1 : ∀ j ∈ (floodLoop adjF nrm cen [i] (flags.set i false)
            []).1, flags.getD j false = true := by
          intro j hj
          rcases hprov j hj with h | h | h
          · simp at h
          · rw [List.mem_singleton] at h
            subst h
            exact hflag
          · rw [getD_set_false] at h
            by_cases hij : j = i
            · rw [if_pos hij] at h
              exact absurd h (by simp)
            · rwa [if_neg hij] at h
        have hchain : ∀ j, (floodLoop adjF nrm cen [i] (flags.set i false)
            []).2.getD j false = true → flags.getD j false = true := by
          intro j hj
          have h := hmono j hj
          rw [getD_set_false] at h
          by_cases hij : j = i
          · rw [if_pos hij] at h
            exact absurd h (by simp)
          · rwa [if_neg hij] at h
        obtain ⟨ihnd, ihp⟩ :=
          ih (floodLoop adjF nrm cen [i] (flags.set i false) []).2
        split
        · rename_i hlen
          constructor
          · rw [List.flatten_cons]
            refine List.Nodup.append hnd ihnd ?_
            intro a ha ha2
            rcases List.mem_flatten.mp ha2 with ⟨p, hp, hap⟩
            have h1 := hfinal a ha
            have h2 := (ihp p hp).2 a hap
            rw [h1] at h2
            exact absurd h2 (by simp)
          · intro p hp
            rcases List.mem_cons.mp hp with rfl | hp
            · exact ⟨hlen, hmem1⟩
            · obtain ⟨hl, hm⟩ := ihp p hp
              exact ⟨hl, fun j hj => hchain j (hm j hj)⟩
        · refine ⟨ihnd, ?_⟩
          intro p hp
          obtain ⟨hl, hm⟩ := ihp p hp
          exact ⟨hl, fun j hj => hchain j (hm j hj)⟩
      · exact ih flags

/-- Reading the initial flag array: index `i` is eligible exactly when it
is a valid face index that is selected. -/
theorem initFlags_getD (m : Mesh) (i : Nat) :
    (initFlags m).getD i false =
      if i < m.numFaces then m.selected i else false := by
  unfold initFlags
  by_cases h : i < m.numFaces
  · rw [if_pos h]
    rw [List.getD_eq_getElem _ _ (by simpa using h)]
    simp
  · rw [if_neg h]
    apply List.getD_eq_default
    simpa using Nat.le_of_not_lt h

/-! ### Concrete evaluation of detection on `M1` -/

/-- On the concrete mesh `M1`, segmentation finds exactly the single patch
`[0, 1, 2]`. -/
theorem M1_patches : findConcavePatches M1 = [[0, 1, 2]] := by
  norm_num [findConcavePatches, initFlags, outerLoop, floodLoop, pushNeighbors,
    M1, concave, dot, vsub, eps, List.range_succ]

/-! ### The claims -/

/-- Claim C1: the dominant axis recorded for a patch is claimed to be the
plurality vote (mode with lowest-index tie break) of the member faces'
per-face axis votes.  The code instead computes
`dirs[np.bincount(dirs).argmax()]`, using the modal value as a *position*
in `dirs`.  On mesh `M1`, detection returns the patch `[0, 1, 2]` whose
votes are `[1, 0, 1]`; the plurality axis (`bincount` followed by
`argmax`) is `1`, but the code records `dirs[1] = 0`. -/
theorem c1_dominant_axis_bug :
    findConcavePatches M1 = [[0, 1, 2]] ∧
    patchDirs M1.normal [0, 1, 2] = [1, 0, 1] ∧
    bincountArgmax (patchDirs M1.normal [0, 1, 2]) = 1 ∧
    patchDirec M1.normal [0, 1, 2] = some 0 :=
  ⟨M1_patches, by decide, by decide, by decide⟩

/-- Claim C2: the centroid recorded in a patch summary (the point every
patch vertex is merged to) is the arithmetic mean of the member faces'
centroids, each face weighted equally.  (`get_bounds_and_center` is
modelled from the spec, as its source file is not available here.) -/
theorem c2_centroid_is_mean (m : Mesh) (findcs : List Nat) (s : PatchSummary)
    (hmem : findcs ∈ findConcavePatches m)
    (hs : summarize m findcs = some s) :
    s.centr = vscale (1 / (findcs.length : ℚ))
      ((findcs.map m.centroid).foldl vadd ⟨0, 0, 0⟩) := by
  have hlen : 1 < findcs.length :=
    ((outerLoop_spec m.adj m.normal m.centroid (List.range m.numFaces)
      (initFlags m)).2 findcs hmem).1
  obtain ⟨a, t, rfl⟩ : ∃ a t, findcs = a :: t := by
    cases findcs with
    | nil => simp at hlen
    | cons a t => exact ⟨a, t, rfl⟩
  unfold summarize at hs
  cases hd : patchDirec m.normal (a :: t) with
  | none => rw [hd] at hs; cases hs
  | some d =>
      rw [hd] at hs
      simp only [List.map_cons, get_bounds_and_center] at hs
      obtain rfl := Option.some.inj hs
      simp [List.length_map]

/-- Claim C3: a patch is merged-and-dissolved by `execute` exactly when
its diameter `d` satisfies `min < d < max` strictly on both ends: the
mutation loop `runMesh` performs the surgery precisely on the sublist
`closedPatches`, and membership there is equivalent to membership in the
input with a strictly in-range diameter. -/
theorem c3_strict_limit_filter (surgery : PatchSummary → Except String Unit)
    (lim : ℚ × ℚ) (ps : List PatchSummary) :
    runMesh surgery lim ps = surgerySeq surgery (closedPatches lim ps) ∧
    ∀ p, p ∈ closedPatches lim ps ↔
      p ∈ ps ∧ lim.1 < p.diam ∧ p.diam < lim.2 := by
  constructor
  · induction ps with
    | nil => rfl
    | cons p rest ih =>
        by_cases h : inLimits lim p.diam = true
        · simp only [runMesh, closedPatches, List.filter_cons, h, if_true,
            surgerySeq]
          cases surgery p with
          | error e => rfl
          | ok _ => exact ih
        · simp only [runMesh, closedPatches, List.filter_cons, h,
            Bool.false_eq_true, if_false]
          exact ih
  · intro p
    simp [closedPatches, List.mem_filter, inLimits, and_assoc]

/-- Claim C4 (counterexample): with a surgery oracle that fails on mesh 0
and succeeds elsewhere, processing the batch `[mesh 0, mesh 1]` leaves
mesh 1 unprocessed (no mesh completes), although the same mesh 1
processes fine on its own — mesh outcomes are *not* independent. -/
theorem c4_counterexample :
    (executeAll surgery4 (0, 1) [(0, [P4]), (1, [P4])]).1 = [] ∧
    (executeAll surgery4 (0, 1) [(1, [P4])]).1 = [1] := by
  constructor <;> norm_num [executeAll, runMesh, inLimits, surgery4, P4]

/-- Claim C4 (amended): `execute` has no per-mesh error isolation — an
error raised while mutating one mesh propagates immediately, so no mesh
of the batch (neither the failing one nor any later one) is committed. -/
theorem c4_error_aborts_batch (surgery : Nat → PatchSummary →
      Except String Unit) (lim : ℚ × ℚ) (k : Nat) (ps : List PatchSummary)
    (rest : List (Nat × List PatchSummary)) (e : String)
    (h : runMesh (surgery k) lim ps = .error e) :
    executeAll surgery lim ((k, ps) :: rest) = ([], some e) := by
  simp [executeAll, h]

/-- Witness for the amended C4 at a concrete batch. -/
theorem c4_error_aborts_batch_witness :
    executeAll surgery4 (0, 1) [(0, [P4]), (1, [P4])] =
      ([], some "malformed merge target") :=
  c4_error_aborts_batch surgery4 (0, 1) 0 [P4] [(1, [P4])]
    "malformed merge target"
    (by norm_num [runMesh, inLimits, surgery4, P4])

/-- Claim C5: starting from the initial stored pair `(0, 1)`, any sequence
of writes through the limits setter keeps the stored pair ordered
(`min ≤ max`); the setter clamps the minimum down (never above the
incoming minimum) and stores the incoming maximum unchanged. -/
theorem c5_clamp_invariant :
    (∀ us : List (ℚ × ℚ),
      (applyUpdates limits0 us).1 ≤ (applyUpdates limits0 us).2) ∧
    (∀ v : ℚ × ℚ, (setLimits v).2 = v.2 ∧ (setLimits v).1 ≤ v.1) := by
  constructor
  · have key : ∀ (us : List (ℚ × ℚ)) (init : ℚ × ℚ), init.1 ≤ init.2 →
        (applyUpdates init us).1 ≤ (applyUpdates init us).2 := by
      intro us
      induction us with
      | nil => intro init h; exact h
      | cons v rest ih =>
          intro init h
          exact ih (setLimits v) (min_le_right v.1 v.2)
    exact fun us => key us limits0 (by norm_num [limits0])
  · intro v
    exact ⟨rfl, min_le_left v.1 v.2⟩

/-- Claim C6: every patch recorded by detection has at least 2 faces —
flood fills that collected only one face are discarded. -/
theorem c6_no_singleton_patches (m : Mesh) (p : List Nat)
    (hp : p ∈ findConcavePatches m) : 2 ≤ p.length :=
  ((outerLoop_spec m.adj m.normal m.centroid (List.range m.numFaces)
    (initFlags m)).2 p hp).1

/-- Witness for C6 on the concrete mesh `M1`. -/
theorem c6_no_singleton_patches_witness : 2 ≤ ([0, 1, 2] : List Nat).length :=
  c6_no_singleton_patches M1 [0, 1, 2]
    (by rw [M1_patches]; exact List.mem_singleton.mpr rfl)

/-- Claim C7: the patches of one detection pass are pairwise disjoint, and
every face of every patch was eligible at the start of the pass: a valid
face index that was selected. -/
theorem c7_disjoint_and_selected (m : Mesh) :
    (findConcavePatches m).Pairwise List.Disjoint ∧
    ∀ p ∈ findConcavePatches m, ∀ i ∈ p,
      i < m.numFaces ∧ m.selected i = true := by
  have hspec := outerLoop_spec m.adj m.normal m.centroid
    (List.range m.numFaces) (initFlags m)
  constructor
  · exact (List.nodup_flatten.mp hspec.1).2
  · intro p hp i hi
    have h := (hspec.2 p hp).2 i hi
    rw [initFlags_getD] at h
    by_cases hlt : i < m.numFaces
    · rw [if_pos hlt] at h
      exact ⟨hlt, h⟩
    · rw [if_neg hlt] at h
      exact absurd h (by simp)

/-- Witness for C7 on the concrete mesh `M1`. -/
theorem c7_disjoint_and_selected_witness :
    0 < M1.numFaces ∧ M1.selected 0 = true :=
  (c7_disjoint_and_selected M1).2 [0, 1, 2]
    (by rw [M1_patches]; exact List.mem_singleton.mpr rfl) 0 (by simp)

/-- Claim C8: during one neighbor scan of the flood fill, a radial
neighbor `i2` of the current face `f` ends up pushed (joins the patch)
exactly when it was already on the stack, or it is listed as a radial
neighbor of `f`, is still unvisited (flag set), and satisfies the
directional concavity predicate `dot(n, centroid(i2) − p) > 1e-5`. -/
theorem c8_push_condition (m : Mesh) (f : Nat) (flags : List Bool)
    (stack : List Nat) (i2 : Nat) :
    i2 ∈ (pushNeighbors m.normal m.centroid f (m.adj f) flags stack).2 ↔
      i2 ∈ stack ∨ (i2 ∈ m.adj f ∧ flags.getD i2 false = true ∧
        concave (m.normal f) (m.centroid f) (m.centroid i2) = true) :=
  pushNeighbors_mem m.normal m.centroid f (m.adj f) flags stack i2

/-- Claim C9: segmentation is deterministic — it depends only on the face
count, selection, per-face normals and centroids, and the radial
adjacency.  Two meshes agreeing on those observations (here they may
differ in their per-face vertex lists) produce identical patch lists. -/
theorem c9_deterministic (m₁ m₂ : Mesh) (hn : m₁.numFaces = m₂.numFaces)
    (hs : m₁.selected = m₂.selected) (hno : m₁.normal = m₂.normal)
    (hc : m₁.centroid = m₂.centroid) (ha : m₁.adj = m₂.adj) :
    findConcavePatches m₁ = findConcavePatches m₂ := by
  unfold findConcavePatches initFlags
  rw [hn, hs, hno, hc, ha]

/-- Witness for C9: `M1` and `M9` differ in their vertex lists only. -/
theorem c9_deterministic_witness :
    findConcavePatches M1 = findConcavePatches M9 :=
  c9_deterministic M1 M9 rfl rfl rfl rfl rfl

/-- Claim C10: within one detection pass no face index occurs twice —
neither inside one patch nor across patches — because a face's flag is
cleared before it is pushed and never reset.  (Termination of the inner
loop is inherent in the model: `floodLoop` is total, justified by the
strictly decreasing measure `flags.count true + stack.length`.) -/
theorem c10_no_duplicate_faces (m : Mesh) :
    (findConcavePatches m).flatten.Nodup :=
  (outerLoop_spec m.adj m.normal m.centroid (List.range m.numFaces)
    (initFlags m)).1

/-- Witness for C2 at the concrete mesh `M1` and its patch `[0, 1, 2]`. -/
theorem c2_centroid_is_mean_witness :
    (⟨[0, 1, 2, 3, 4, 5, 6, 7, 8], ⟨1/3, 2/3, 0⟩, 1⟩ : PatchSummary).centr =
      vscale (1 / (([0, 1, 2] : List Nat).length : ℚ))
        (([0, 1, 2].map M1.centroid).foldl vadd ⟨0, 0, 0⟩) :=
  c2_centroid_is_mean M1 [0, 1, 2] _
    (by rw [M1_patches]; exact List.mem_singleton.mpr rfl)
    (by norm_num [summarize, patchDirec, patchDirs, faceVote, bincountArgmax,
      get_bounds_and_center, vadd, vmax, vmin, vsub, vscale, axisGet, M1,
      List.dedup_cons_of_mem, List.dedup_cons_of_not_mem])
